import Mathlib

/-!
Verification of the PowerNode Distributed Inference Mesh (DIM) against its
natural-language specification.  Each component used by a claim is embedded
shallowly: Python dictionaries become Lean structures or association lists,
`async` methods become state-passing functions, exceptions become `Except`,
and wall-clock reads (`time.time()`) become a logical clock threaded through
the state.  Sources embedded here:

* `daemon/src/job_queue.py`        — `JobQueue`
* `daemon/src/model_cache.py`      — `ModelCache`
* `daemon/src/daemon.py`           — `DIMDaemon.cancel_job`
* `orchestrator/src/orchestrator.py` — `DIMOrchestrator`
* `orchestrator/src/rate_limiter.py` — `RateLimiter`
* `pattern_engines/collaborative/engine.py` — `CollaborativeEngine`
* `pattern_engines/chained/engine.py`       — `ChainedEngine`
-/

/-- A Python/JSON value, as passed around in `input_data`, daemon results and
config dictionaries.  `vnull` is Python `None`. -/
inductive PyVal where
  | vnull
  | vbool (b : Bool)
  | vint (n : Int)
  | vstr (s : String)
  | vlist (xs : List PyVal)
  | vdict (kvs : List (String × PyVal))

/-- The `{'valid': bool, 'error': str}` dictionaries returned by every
`validate_spec` in the repository. -/
structure ValidationResult where
  valid : Bool
  error : Option String
deriving DecidableEq

/-- `Except.isOk` spelled out so that claim statements stay self-contained. -/
def exceptIsOk {ε α : Type} : Except ε α → Bool
  | .ok _ => true
  | .error _ => false

/-! ## JobQueue (`daemon/src/job_queue.py`)

Three FIFO bands (`deque`s) keyed `high` / `normal` / `low`.  `enqueue`
normalises the priority, raises `QueueFullError` when `size() >= max_size`
(before any mutation, so the queue is unchanged on failure) and appends to
the right band.  `dequeue` scans the bands in the order high, normal, low and
pops from the left of the first non-empty one; on an empty queue it blocks on
the condition variable, which we model by returning `none`.  The queue is
parametric in the job-spec payload `α`; the only field `enqueue` reads from
the spec is `priority`, supplied by the extractor `getPriority`. -/
structure JobQueueState (α : Type) where
  high : List (String × α)
  normal : List (String × α)
  low : List (String × α)
  maxSize : Nat
deriving DecidableEq

namespace JobQueue

/-- `self.size()`: total number of queued jobs. -/
def size {α : Type} (q : JobQueueState α) : Nat :=
  q.high.length + q.normal.length + q.low.length

/-- `priority = job_spec.get('priority', 'normal'); if priority not in
self.queues: priority = 'normal'`. -/
def normPriority (p : Option String) : String :=
  let pr := p.getD "normal"
  if pr = "high" ∨ pr = "normal" ∨ pr = "low" then pr else "normal"

/-- `JobQueue.enqueue`.  The `QueueFullError` is raised before the append, so
an `.error` result leaves the Python queue exactly as it was. -/
def enqueue {α : Type} (getPriority : α → Option String) (q : JobQueueState α)
    (jobId : String) (spec : α) : Except String (JobQueueState α) :=
  let pr := normPriority (getPriority spec)
  if size q ≥ q.maxSize then
    .error ("Queue is full (max_size=" ++ toString q.maxSize ++ ")")
  else if pr = "high" then .ok { q with high := q.high ++ [(jobId, spec)] }
  else if pr = "low" then .ok { q with low := q.low ++ [(jobId, spec)] }
  else .ok { q with normal := q.normal ++ [(jobId, spec)] }

/-- `JobQueue.dequeue`: first non-empty band in the order high, normal, low;
`none` models the cooperative block on an empty queue. -/
def dequeue {α : Type} (q : JobQueueState α) :
    Option ((String × α) × JobQueueState α) :=
  match q.high with
  | j :: rest => some (j, { q with high := rest })
  | [] =>
    match q.normal with
    | j :: rest => some (j, { q with normal := rest })
    | [] =>
      match q.low with
      | j :: rest => some (j, { q with low := rest })
      | [] => none

end JobQueue

/-- C6: enqueue on a full queue raises QUEUE_FULL and leaves the queue
unchanged; dequeue takes from the highest non-empty priority band, never
serves `normal`/`low` while `high` is non-empty, and is FIFO within a band
(enqueue appends at the tail, dequeue pops at the head). -/
theorem jobQueue_full_and_priority_fifo {α : Type} (getPriority : α → Option String)
    (q : JobQueueState α) (jobId : String) (spec : α) :
    (JobQueue.size q ≥ q.maxSize →
      JobQueue.enqueue getPriority q jobId spec =
        .error ("Queue is full (max_size=" ++ toString q.maxSize ++ ")")) ∧
    (∀ j rest, q.high = j :: rest →
      JobQueue.dequeue q = some (j, { q with high := rest })) ∧
    (∀ j rest, q.high = [] → q.normal = j :: rest →
      JobQueue.dequeue q = some (j, { q with normal := rest })) ∧
    (∀ j rest, q.high = [] → q.normal = [] → q.low = j :: rest →
      JobQueue.dequeue q = some (j, { q with low := rest })) ∧
    (JobQueue.size q < q.maxSize →
      JobQueue.normPriority (getPriority spec) = "high" →
      JobQueue.enqueue getPriority q jobId spec =
        .ok { q with high := q.high ++ [(jobId, spec)] }) ∧
    (JobQueue.size q < q.maxSize →
      JobQueue.normPriority (getPriority spec) = "normal" →
      JobQueue.enqueue getPriority q jobId spec =
        .ok { q with normal := q.normal ++ [(jobId, spec)] }) ∧
    (JobQueue.size q < q.maxSize →
      JobQueue.normPriority (getPriority spec) = "low" →
      JobQueue.enqueue getPriority q jobId spec =
        .ok { q with low := q.low ++ [(jobId, spec)] }) := by
  refine ⟨?_, ?_, ?_, ?_, ?_, ?_, ?_⟩
  · intro h
    simp [JobQueue.enqueue, h]
  · intro j rest h
    simp [JobQueue.dequeue, h]
  · intro j rest h1 h2
    simp [JobQueue.dequeue, h1, h2]
  · intro j rest h1 h2 h3
    simp [JobQueue.dequeue, h1, h2, h3]
  · intro h hp
    simp [JobQueue.enqueue, hp, Nat.not_le.mpr h]
  · intro h hp
    simp [JobQueue.enqueue, hp, Nat.not_le.mpr h]
  · intro h hp
    simp [JobQueue.enqueue, hp, Nat.not_le.mpr h]

/-- C6 witness: the theorem instantiated on a concrete queue holding one
`high` and one `normal` job with `max_size = 2`. -/
theorem jobQueue_full_and_priority_fifo_witness :
    (JobQueue.enqueue (fun p : Option String => p)
        (⟨[("h1", some "high")], [("n1", some "normal")], [], 2⟩ : JobQueueState (Option String))
        "x" (some "low") = .error "Queue is full (max_size=2)") ∧
    (JobQueue.dequeue
        (⟨[("h1", some "high")], [("n1", some "normal")], [], 2⟩ : JobQueueState (Option String)) =
      some (("h1", some "high"), ⟨[], [("n1", some "normal")], [], 2⟩)) ∧
    (JobQueue.enqueue (fun p : Option String => p)
        (⟨[], [("n1", some "normal")], [], 2⟩ : JobQueueState (Option String))
        "h2" (some "high") = .ok ⟨[("h2", some "high")], [("n1", some "normal")], [], 2⟩) := by
  refine ⟨?_, ?_, ?_⟩
  · exact (jobQueue_full_and_priority_fifo (fun p => p) _ "x" (some "low")).1 (by decide)
  · exact (jobQueue_full_and_priority_fifo (fun p => p)
      (⟨[("h1", some "high")], [("n1", some "normal")], [], 2⟩ : JobQueueState (Option String))
      "x" (some "low")).2.1 _ _ rfl
  · exact (jobQueue_full_and_priority_fifo (fun p => p)
      (⟨[], [("n1", some "normal")], [], 2⟩ : JobQueueState (Option String))
      "h2" (some "high")).2.2.2.2.1 (by decide) (by decide)

/-! ## ModelCache (`daemon/src/model_cache.py`)

`cached_models` is a Python dict `model_id -> {path, size, last_used}`; we
embed it as an insertion-ordered association list with unique keys.  The set
of files on disk is a list of paths; `time.time()` is a logical clock bumped
on every read.  Sizes of downloaded files (`os.path.getsize`) are supplied by
the environment function `sizes : path -> size`.  The Python eviction
threshold `current_size <= self.max_cache_size * 0.9` compares against an IEEE
float; we use the exact rational comparison `10 * current <= 9 * max`. -/
structure CacheEntry where
  path : String
  size : Nat
  lastUsed : Nat
deriving DecidableEq

structure ModelCacheState where
  entries : List (String × CacheEntry)
  disk : List String
  clock : Nat
  maxCacheSize : Nat
deriving DecidableEq

namespace ModelCache

/-- Keys of the `cached_models` dict, in insertion order. -/
def keysOf (es : List (String × CacheEntry)) : List String :=
  es.map (fun p => p.1)

/-- `del self.cached_models[model_id]` (keys are unique, so the filter removes
exactly the one binding). -/
def removeKey (es : List (String × CacheEntry)) (id : String) :
    List (String × CacheEntry) :=
  es.filter (fun p => p.1 ≠ id)

/-- `self.cached_models[model_id] = entry`: dict assignment updates in place
when the key exists and appends otherwise. -/
def setKey (es : List (String × CacheEntry)) (id : String) (e : CacheEntry) :
    List (String × CacheEntry) :=
  if id ∈ keysOf es then
    es.map (fun p => if p.1 = id then (p.1, e) else p)
  else es ++ [(id, e)]

/-- `sum(m['size'] for m in self.cached_models.values())`. -/
def totalSize (es : List (String × CacheEntry)) : Nat :=
  (es.map (fun p => p.2.size)).sum

/-- One insertion step of the stable ascending sort on `last_used`
(`sorted(..., key=lambda x: x[1]['last_used'])`). -/
def insertByLastUsed (x : String × CacheEntry) :
    List (String × CacheEntry) → List (String × CacheEntry)
  | [] => [x]
  | y :: ys =>
    if x.2.lastUsed < y.2.lastUsed then x :: y :: ys
    else y :: insertByLastUsed x ys

/-- `sorted(self.cached_models.items(), key=lambda x: x[1]['last_used'])`:
stable sort, oldest `last_used` first. -/
def sortByLastUsed (es : List (String × CacheEntry)) :
    List (String × CacheEntry) :=
  es.foldl (fun acc x => insertByLastUsed x acc) []

/-- The eviction loop of `evict_if_needed`: walk the age-sorted entries,
remove the file and the dict binding, decrement the running size, and stop as
soon as `current_size <= 0.9 * max_cache_size`. -/
def evictLoop (maxSz : Nat) :
    List (String × CacheEntry) → Nat → ModelCacheState → ModelCacheState
  | [], _, s => s
  | (id, e) :: rest, current, s =>
    let s2 : ModelCacheState :=
      { s with entries := removeKey s.entries id, disk := s.disk.erase e.path }
    let cur2 := current - e.size
    if 10 * cur2 ≤ 9 * maxSz then s2 else evictLoop maxSz rest cur2 s2

/-- `ModelCache.evict_if_needed`. -/
def evictIfNeeded (s : ModelCacheState) : ModelCacheState :=
  let current := totalSize s.entries
  if current > s.maxCacheSize then
    evictLoop s.maxCacheSize (sortByLastUsed s.entries) current s
  else s

/-- The path `cache_dir / model_id / "model.bin"` used by `download_model`. -/
def modelPath (id : String) : String :=
  id ++ "/model.bin"

/-- `ModelCache.download_model`: creates the model directory and the file
(`temp_file.touch()`), returning its path. -/
def downloadModel (s : ModelCacheState) (id : String) :
    ModelCacheState × String :=
  let path := modelPath id
  ({ s with disk := s.disk.insert path }, path)

/-- The miss path of `get_model`: download, evict if needed, then record the
new entry (`size` from `os.path.getsize`, `last_used` from `time.time()`). -/
def getModelDownload (sizes : String → Nat) (s : ModelCacheState)
    (id : String) : ModelCacheState × String :=
  let (s2, path) := downloadModel s id
  let s3 := evictIfNeeded s2
  let entry : CacheEntry := { path := path, size := sizes path, lastUsed := s3.clock }
  ({ s3 with entries := setKey s3.entries id entry, clock := s3.clock + 1 }, path)

/-- `ModelCache.get_model`: on a hit refresh `last_used`, verify the file
still exists (dropping the binding and re-downloading when it does not); on a
miss download, evict, and insert. -/
def getModel (sizes : String → Nat) (s : ModelCacheState) (id : String) :
    ModelCacheState × String :=
  match (s.entries.lookup id : Option CacheEntry) with
  | some e =>
    let entries2 := setKey s.entries id { e with lastUsed := s.clock }
    let s2 : ModelCacheState := { s with entries := entries2, clock := s.clock + 1 }
    if e.path ∈ s.disk then (s2, e.path)
    else
      let s3 : ModelCacheState := { s2 with entries := removeKey s2.entries id }
      getModelDownload sizes s3 id
  | none => getModelDownload sizes s id

end ModelCache

/-- C1 counterexample: `get_model` runs eviction *before* inserting the newly
downloaded entry, so the cache-size invariant fails right after `get_model`.
With `max_cache_size = 10` and two models of size 8 each, the second
`get_model` finds the cache at size 8 (not over the limit, so nothing is
evicted) and then inserts 8 more: total 16 > 10. -/
theorem modelCache_bound_counterexample :
    let sizes : String → Nat := fun _ => 8
    let s0 : ModelCacheState := ⟨[], [], 0, 10⟩
    let s1 := (ModelCache.getModel sizes s0 "m1").1
    let s2 := (ModelCache.getModel sizes s1 "m2").1
    ModelCache.totalSize s1.entries ≤ s1.maxCacheSize ∧
    ModelCache.totalSize s2.entries = 16 ∧
    s2.maxCacheSize = 10 ∧
    ¬ ModelCache.totalSize s2.entries ≤ s2.maxCacheSize := by
  refine ⟨by decide, by decide, by decide, by decide⟩

namespace ModelCache

lemma totalSize_append (es fs : List (String × CacheEntry)) :
    totalSize (es ++ fs) = totalSize es + totalSize fs := by
  simp [totalSize]

lemma totalSize_perm {es fs : List (String × CacheEntry)} (h : es.Perm fs) :
    totalSize es = totalSize fs := by
  simp only [totalSize]
  exact (h.map (fun p => p.2.size)).sum_eq

lemma keysOf_perm {es fs : List (String × CacheEntry)} (h : es.Perm fs) :
    (keysOf es).Perm (keysOf fs) := by
  simp only [keysOf]
  exact h.map (fun p => p.1)

lemma insertByLastUsed_perm (x : String × CacheEntry)
    (l : List (String × CacheEntry)) : (insertByLastUsed x l).Perm (x :: l) := by
  induction l with
  | nil => exact List.Perm.refl _
  | cons y ys ih =>
    by_cases h : x.2.lastUsed < y.2.lastUsed
    · simp [insertByLastUsed, h]
    · simp only [insertByLastUsed, if_neg h]
      exact (ih.cons y).trans (List.Perm.swap x y ys)

lemma sortByLastUsed_aux_perm (l acc : List (String × CacheEntry)) :
    (l.foldl (fun acc x => insertByLastUsed x acc) acc).Perm (acc ++ l) := by
  induction l generalizing acc with
  | nil => simp
  | cons x xs ih =>
    simp only [List.foldl_cons]
    refine (ih (insertByLastUsed x acc)).trans ?_
    have h1 : (insertByLastUsed x acc ++ xs).Perm ((x :: acc) ++ xs) :=
      (insertByLastUsed_perm x acc).append_right xs
    refine h1.trans ?_
    have h2 : List.Perm (x :: (acc ++ xs)) (acc ++ x :: xs) := List.perm_middle.symm
    simpa using h2

lemma sortByLastUsed_perm (es : List (String × CacheEntry)) :
    (sortByLastUsed es).Perm es := by
  simpa [sortByLastUsed] using sortByLastUsed_aux_perm es []

lemma keysOf_removeKey_subset (es : List (String × CacheEntry)) (x : String) :
    keysOf (removeKey es x) ⊆ keysOf es := by
  intro k hk
  simp only [keysOf, removeKey, List.mem_map] at hk ⊢
  obtain ⟨p, hp, hpk⟩ := hk
  exact ⟨p, (List.mem_filter.mp hp).1, hpk⟩

lemma not_mem_keysOf_removeKey (es : List (String × CacheEntry)) (x : String) :
    x ∉ keysOf (removeKey es x) := by
  intro hk
  simp only [keysOf, removeKey, List.mem_map] at hk
  obtain ⟨p, hp, hpk⟩ := hk
  have h2 := (List.mem_filter.mp hp).2
  simp at h2
  exact h2 hpk

lemma nodup_keysOf_removeKey {es : List (String × CacheEntry)} (x : String)
    (h : (keysOf es).Nodup) : (keysOf (removeKey es x)).Nodup := by
  have hsub : (removeKey es x).Sublist es := List.filter_sublist es
  have h2 : (List.map (fun p : String × CacheEntry => p.1) es).Nodup := by
    simpa [keysOf] using h
  simpa [keysOf] using (hsub.map (fun p => p.1)).nodup h2

lemma totalSize_removeKey_le (es : List (String × CacheEntry)) (x : String) :
    totalSize (removeKey es x) ≤ totalSize es := by
  induction es with
  | nil => simp [removeKey, totalSize]
  | cons p rest ih =>
    by_cases h : p.1 = x
    · have : removeKey (p :: rest) x = removeKey rest x := by
        simp [removeKey, List.filter_cons, h]
      rw [this]
      refine le_trans ih ?_
      simp only [totalSize, List.map_cons, List.sum_cons]
      exact Nat.le_add_left _ _
    · have : removeKey (p :: rest) x = p :: removeKey rest x := by
        simp [removeKey, List.filter_cons, h]
      rw [this]
      simp only [totalSize, List.map_cons, List.sum_cons]
      exact Nat.add_le_add_left ih _

lemma removeKey_of_cons_perm {es rest : List (String × CacheEntry)}
    {id : String} {e : CacheEntry}
    (hperm : ((id, e) :: rest).Perm es) (hnd : (keysOf es).Nodup) :
    (removeKey es id).Perm rest := by
  have hnd2 : (keysOf ((id, e) :: rest)).Nodup :=
    ((keysOf_perm hperm).nodup_iff).mpr hnd
  have hnd3 : (id :: keysOf rest).Nodup := by
    simpa [keysOf] using hnd2
  have hid : id ∉ keysOf rest := (List.nodup_cons.mp hnd3).1
  have h1 : (removeKey es id).Perm (removeKey ((id, e) :: rest) id) :=
    (hperm.symm).filter _
  have hall : ∀ p ∈ rest, p.1 ≠ id := by
    intro p hp hcontra
    exact hid (hcontra ▸ List.mem_map_of_mem (fun q => q.1) hp)
  have h2 : removeKey ((id, e) :: rest) id = rest := by
    simp only [removeKey, List.filter_cons]
    rw [if_neg (by simp)]
    exact List.filter_eq_self.mpr (fun p hp => by simpa using hall p hp)
  exact h2 ▸ h1

lemma evictLoop_maxCacheSize (maxSz : Nat) (l : List (String × CacheEntry))
    (c : Nat) (s : ModelCacheState) :
    (evictLoop maxSz l c s).maxCacheSize = s.maxCacheSize := by
  induction l generalizing c s with
  | nil => rfl
  | cons p rest ih =>
    obtain ⟨id, e⟩ := p
    simp only [evictLoop]
    by_cases h : 10 * (c - e.size) ≤ 9 * maxSz
    · simp [h]
    · simp only [if_neg h]
      exact ih _ _

lemma evictLoop_keysOf_subset (maxSz : Nat) (l : List (String × CacheEntry))
    (c : Nat) (s : ModelCacheState) :
    keysOf (evictLoop maxSz l c s).entries ⊆ keysOf s.entries := by
  induction l generalizing c s with
  | nil => exact fun k hk => hk
  | cons p rest ih =>
    obtain ⟨id, e⟩ := p
    simp only [evictLoop]
    by_cases h : 10 * (c - e.size) ≤ 9 * maxSz
    · simp only [if_pos h]
      exact keysOf_removeKey_subset s.entries id
    · simp only [if_neg h]
      exact fun k hk => keysOf_removeKey_subset s.entries id (ih _ _ hk)

lemma evictLoop_nodup (maxSz : Nat) (l : List (String × CacheEntry))
    (c : Nat) (s : ModelCacheState) (h : (keysOf s.entries).Nodup) :
    (keysOf (evictLoop maxSz l c s).entries).Nodup := by
  induction l generalizing c s with
  | nil => exact h
  | cons p rest ih =>
    obtain ⟨id, e⟩ := p
    simp only [evictLoop]
    by_cases hc : 10 * (c - e.size) ≤ 9 * maxSz
    · simp only [if_pos hc]
      exact nodup_keysOf_removeKey id h
    · simp only [if_neg hc]
      exact ih _ _ (nodup_keysOf_removeKey id h)

lemma evictLoop_bound (maxSz : Nat) (l : List (String × CacheEntry))
    (c : Nat) (s : ModelCacheState)
    (hperm : l.Perm s.entries) (hnd : (keysOf s.entries).Nodup)
    (hc : c = totalSize s.entries) :
    totalSize (evictLoop maxSz l c s).entries ≤ maxSz := by
  induction l generalizing c s with
  | nil =>
    have : s.entries = [] := hperm.symm.eq_nil
    simp [evictLoop, this, totalSize]
  | cons p rest ih =>
    obtain ⟨id, e⟩ := p
    have hrem : (removeKey s.entries id).Perm rest := removeKey_of_cons_perm hperm hnd
    have htot : totalSize s.entries = e.size + totalSize rest := by
      rw [totalSize_perm hperm.symm]; simp [totalSize]
    have hcur2 : c - e.size = totalSize rest := by omega
    simp only [evictLoop]
    by_cases hstop : 10 * (c - e.size) ≤ 9 * maxSz
    · simp only [if_pos hstop]
      have h1 : totalSize (removeKey s.entries id) = totalSize rest :=
        totalSize_perm hrem
      have h2 : 10 * totalSize rest ≤ 9 * maxSz := by rw [← hcur2]; exact hstop
      simp only [h1]
      omega
    · simp only [if_neg hstop]
      exact ih (c - e.size)
        { s with entries := removeKey s.entries id, disk := s.disk.erase e.path }
        hrem.symm (nodup_keysOf_removeKey id hnd)
        (by simpa [totalSize_perm hrem] using hcur2)

lemma lookup_none_not_mem {es : List (String × CacheEntry)} {id : String}
    (h : es.lookup id = none) : id ∉ keysOf es := by
  induction es with
  | nil => simp [keysOf]
  | cons p rest ih =>
    obtain ⟨k, v⟩ := p
    by_cases hk : k = id
    · subst hk
      simp [List.lookup] at h
    · have hbk : (id == k) = false := beq_eq_false_iff_ne.mpr (Ne.symm hk)
      simp only [List.lookup, hbk] at h
      simp only [keysOf, List.map_cons, List.mem_cons]
      rintro (rfl | hmem)
      · exact hk rfl
      · exact ih h hmem

lemma mem_keysOf_of_lookup {es : List (String × CacheEntry)} {id : String}
    {e : CacheEntry} (h : es.lookup id = some e) : id ∈ keysOf es := by
  induction es with
  | nil => simp [List.lookup] at h
  | cons p rest ih =>
    obtain ⟨k, v⟩ := p
    by_cases hk : k = id
    · simp [keysOf, hk]
    · have hbk : (id == k) = false := beq_eq_false_iff_ne.mpr (Ne.symm hk)
      simp only [List.lookup, hbk] at h
      simp only [keysOf, List.map_cons, List.mem_cons]
      exact Or.inr (ih h)

lemma setKey_not_mem {es : List (String × CacheEntry)} {id : String}
    (e : CacheEntry) (h : id ∉ keysOf es) :
    setKey es id e = es ++ [(id, e)] := by
  simp [setKey, h]

lemma map_update_of_not_mem {es : List (String × CacheEntry)} {id : String}
    (e2 : CacheEntry) (h : id ∉ keysOf es) :
    es.map (fun p => if p.1 = id then (p.1, e2) else p) = es := by
  induction es with
  | nil => rfl
  | cons p rest ih =>
    simp only [keysOf, List.map_cons, List.mem_cons] at h
    push_neg at h
    simp only [List.map_cons]
    rw [if_neg (fun hc => h.1 hc.symm), ih (by simpa [keysOf] using h.2)]

lemma keysOf_setKey_mem {es : List (String × CacheEntry)} {id : String}
    (e2 : CacheEntry) (h : id ∈ keysOf es) :
    keysOf (setKey es id e2) = keysOf es := by
  unfold setKey
  rw [if_pos h]
  simp only [keysOf, List.map_map]
  refine List.map_congr_left ?_
  intro p _
  by_cases hp : p.1 = id
  · simp [hp]
  · simp [hp]

lemma totalSize_map_update {es : List (String × CacheEntry)} {id : String}
    {e e2 : CacheEntry} (hnd : (keysOf es).Nodup) (hl : es.lookup id = some e)
    (hs : e2.size = e.size) :
    totalSize (es.map (fun p => if p.1 = id then (p.1, e2) else p)) =
      totalSize es := by
  induction es with
  | nil => simp [List.lookup] at hl
  | cons p rest ih =>
    obtain ⟨k, v⟩ := p
    have hnd2 : (k :: keysOf rest).Nodup := by simpa [keysOf] using hnd
    by_cases hk : k = id
    · subst hk
      have hv : v = e := by simpa [List.lookup] using hl
      have hrest : k ∉ keysOf rest := (List.nodup_cons.mp hnd2).1
      simp only [List.map_cons, if_pos rfl]
      rw [map_update_of_not_mem e2 hrest]
      simp [totalSize, hs, hv]
    · have hbk : (id == k) = false := beq_eq_false_iff_ne.mpr (Ne.symm hk)
      have hl2 : rest.lookup id = some e := by
        simpa [List.lookup, hbk] using hl
      have hnd3 : (keysOf rest).Nodup := (List.nodup_cons.mp hnd2).2
      simp only [List.map_cons, if_neg hk]
      simp only [totalSize, List.map_cons, List.sum_cons]
      have h2 := ih hnd3 hl2
      simp only [totalSize] at h2
      omega

lemma totalSize_setKey_samesize {es : List (String × CacheEntry)} {id : String}
    {e e2 : CacheEntry} (hnd : (keysOf es).Nodup) (hl : es.lookup id = some e)
    (hs : e2.size = e.size) :
    totalSize (setKey es id e2) = totalSize es := by
  unfold setKey
  rw [if_pos (mem_keysOf_of_lookup hl)]
  exact totalSize_map_update hnd hl hs

lemma evictIfNeeded_maxCacheSize (s : ModelCacheState) :
    (evictIfNeeded s).maxCacheSize = s.maxCacheSize := by
  unfold evictIfNeeded
  by_cases h : totalSize s.entries > s.maxCacheSize
  · simp only [if_pos h]
    exact evictLoop_maxCacheSize _ _ _ _
  · simp [if_neg h]

lemma evictIfNeeded_keys_subset (s : ModelCacheState) :
    keysOf (evictIfNeeded s).entries ⊆ keysOf s.entries := by
  unfold evictIfNeeded
  by_cases h : totalSize s.entries > s.maxCacheSize
  · simp only [if_pos h]
    exact evictLoop_keysOf_subset _ _ _ _
  · simp only [if_neg h]
    exact fun k hk => hk

lemma evictIfNeeded_nodup (s : ModelCacheState)
    (h : (keysOf s.entries).Nodup) :
    (keysOf (evictIfNeeded s).entries).Nodup := by
  unfold evictIfNeeded
  by_cases hc : totalSize s.entries > s.maxCacheSize
  · simp only [if_pos hc]
    exact evictLoop_nodup _ _ _ _ h
  · simpa [if_neg hc] using h

lemma evictIfNeeded_bound (s : ModelCacheState)
    (hnd : (keysOf s.entries).Nodup) :
    totalSize (evictIfNeeded s).entries ≤ s.maxCacheSize := by
  unfold evictIfNeeded
  by_cases h : totalSize s.entries > s.maxCacheSize
  · simp only [if_pos h]
    exact evictLoop_bound s.maxCacheSize _ _ s (sortByLastUsed_perm s.entries) hnd rfl
  · simp only [if_neg h]
    omega

lemma getModelDownload_bound (sizes : String → Nat) (s : ModelCacheState)
    (id : String) (hnd : (keysOf s.entries).Nodup)
    (hid : id ∉ keysOf s.entries) :
    totalSize ((getModelDownload sizes s id).1).entries ≤
      s.maxCacheSize + sizes (modelPath id) := by
  unfold getModelDownload downloadModel
  simp only
  set s2 : ModelCacheState := { s with disk := s.disk.insert (modelPath id) } with hs2
  have hnd2 : (keysOf s2.entries).Nodup := hnd
  have hb := evictIfNeeded_bound s2 hnd2
  have hmax : s2.maxCacheSize = s.maxCacheSize := rfl
  have hid3 : id ∉ keysOf (evictIfNeeded s2).entries :=
    fun h => hid (evictIfNeeded_keys_subset s2 h)
  rw [setKey_not_mem _ hid3, totalSize_append]
  rw [hmax] at hb
  have hone : ∀ c : Nat, totalSize
      [(id, (⟨modelPath id, sizes (modelPath id), c⟩ : CacheEntry))] =
      sizes (modelPath id) := by
    intro c
    simp [totalSize]
  rw [hone]
  omega

end ModelCache

/-- C1 amended: the cache-size invariant holds after `evict_if_needed`, but
after `get_model` the total is only bounded by `max_cache_size` plus the size
of the model just fetched, because `get_model` runs eviction *before*
inserting the new entry. -/
theorem modelCache_size_bounds (sizes : String → Nat) (s : ModelCacheState)
    (id : String) (hnd : (ModelCache.keysOf s.entries).Nodup)
    (hB : ModelCache.totalSize s.entries ≤ s.maxCacheSize) :
    ModelCache.totalSize (ModelCache.evictIfNeeded s).entries ≤ s.maxCacheSize ∧
    ModelCache.totalSize ((ModelCache.getModel sizes s id).1).entries ≤
      s.maxCacheSize + sizes (ModelCache.modelPath id) := by
  constructor
  · exact ModelCache.evictIfNeeded_bound s hnd
  · unfold ModelCache.getModel
    cases hl : s.entries.lookup id with
    | none =>
      simp only
      exact ModelCache.getModelDownload_bound sizes s id hnd
        (ModelCache.lookup_none_not_mem hl)
    | some e =>
      simp only
      by_cases hd : e.path ∈ s.disk
      · simp only [if_pos hd]
        have := ModelCache.totalSize_setKey_samesize hnd hl
          (show ({ e with lastUsed := s.clock } : CacheEntry).size = e.size from rfl)
        simp only [this]
        omega
      · simp only [if_neg hd]
        have hkeys : ModelCache.keysOf
            (ModelCache.setKey s.entries id { e with lastUsed := s.clock }) =
            ModelCache.keysOf s.entries :=
          ModelCache.keysOf_setKey_mem _ (ModelCache.mem_keysOf_of_lookup hl)
        have hnd2 : (ModelCache.keysOf
            (ModelCache.setKey s.entries id { e with lastUsed := s.clock })).Nodup := by
          rw [hkeys]; exact hnd
        have hnd3 := ModelCache.nodup_keysOf_removeKey id hnd2
        have hid3 := ModelCache.not_mem_keysOf_removeKey
          (ModelCache.setKey s.entries id { e with lastUsed := s.clock }) id
        exact ModelCache.getModelDownload_bound sizes _ id hnd3 hid3

/-- C1 amended witness: with `max_cache_size = 10` and 8-byte models, the
cache of total size 8 satisfies the hypotheses; `get_model` of a second model
lands at 16 ≤ 10 + 8. -/
theorem modelCache_size_bounds_witness :
    let sizes : String → Nat := fun _ => 8
    let s1 : ModelCacheState :=
      ⟨[("m1", ⟨"m1/model.bin", 8, 1⟩)], ["m1/model.bin"], 2, 10⟩
    (ModelCache.keysOf s1.entries).Nodup ∧
    ModelCache.totalSize s1.entries ≤ s1.maxCacheSize ∧
    ModelCache.totalSize (ModelCache.evictIfNeeded s1).entries ≤ s1.maxCacheSize ∧
    ModelCache.totalSize ((ModelCache.getModel sizes s1 "m2").1).entries ≤
      s1.maxCacheSize + sizes (ModelCache.modelPath "m2") := by
  refine ⟨by decide, by decide, ?_, ?_⟩
  · exact (modelCache_size_bounds (fun _ => 8) _ "m2" (by decide) (by decide)).1
  · exact (modelCache_size_bounds (fun _ => 8) _ "m2" (by decide) (by decide)).2

/-! ## Concurrent `get_model` (C8)

`get_model` is an `async` coroutine scheduled cooperatively.  Its body up to
the fetch inside `download_model` touches only in-memory state; the fetch
itself stands for the object-store transfer, which is network I/O and hence a
suspension point.  (Modelled from the spec: in the repository the Phase-1
`download_model` placeholder creates the file with `touch()` in place of the
real `ipfs_client.get_file` transfer; §4.4/§6 of the spec define the fetch as
an ObjectStore network operation, so we model it as suspending.)  A task is a
program counter plus the `model_id` it is getting:

* `start`      — about to run `get_model` up to the fetch;
* `awaitFetch` — suspended with its own fetch in flight;
* `done`       — returned a path.

One `stepTask` runs one task for one atomic segment.  Nothing in
`model_cache.py` coordinates fetches per `model_id` (no lock, event or
keyed single-flight), which is what the theorems below exploit. -/
inductive FetchPC where
  | start
  | awaitFetch
  | done (path : String)
deriving DecidableEq

structure FetchTask where
  model : String
  pc : FetchPC
deriving DecidableEq

structure ConcCacheState where
  core : ModelCacheState
  tasks : List FetchTask
deriving DecidableEq

namespace ConcCache

/-- Run task `i` for one atomic segment of `get_model`. -/
def stepTask (sizes : String → Nat) (s : ConcCacheState) (i : Nat) :
    ConcCacheState :=
  match s.tasks[i]? with
  | none => s
  | some t =>
    match t.pc with
    | .done _ => s
    | .start =>
      match (s.core.entries.lookup t.model : Option CacheEntry) with
      | some e =>
        let entries2 := ModelCache.setKey s.core.entries t.model
          { e with lastUsed := s.core.clock }
        let core2 : ModelCacheState :=
          { s.core with entries := entries2, clock := s.core.clock + 1 }
        if e.path ∈ s.core.disk then
          { core := core2, tasks := s.tasks.set i { t with pc := .done e.path } }
        else
          { core := { core2 with entries := ModelCache.removeKey core2.entries t.model },
            tasks := s.tasks.set i { t with pc := .awaitFetch } }
      | none =>
        { core := s.core, tasks := s.tasks.set i { t with pc := .awaitFetch } }
    | .awaitFetch =>
      let path := ModelCache.modelPath t.model
      let core2 : ModelCacheState := { s.core with disk := s.core.disk.insert path }
      let core3 := ModelCache.evictIfNeeded core2
      let entry : CacheEntry := { path := path, size := sizes path, lastUsed := core3.clock }
      let core4 : ModelCacheState :=
        { core3 with entries := ModelCache.setKey core3.entries t.model entry,
                     clock := core3.clock + 1 }
      { core := core4, tasks := s.tasks.set i { t with pc := .done path } }

/-- Run a schedule (a list of task indices), one atomic segment each. -/
def run (sizes : String → Nat) (s : ConcCacheState) (sched : List Nat) :
    ConcCacheState :=
  sched.foldl (stepTask sizes) s

/-- Number of fetches in flight for `model_id` `m`. -/
def inFlight (s : ConcCacheState) (m : String) : Nat :=
  (s.tasks.filter (fun t => t.model = m ∧ t.pc = FetchPC.awaitFetch)).length

end ConcCache

/-- C8 counterexample: two tasks call `get_model "m"` on an empty cache; the
schedule runs each up to its fetch.  Both observe a miss (neither has
registered the entry yet) and both start a download: two fetches for the same
`model_id` are in flight at once, and the second caller did not wait for or
share the first fetch. -/
theorem modelCache_single_flight_counterexample :
    let sizes : String → Nat := fun _ => 8
    let s0 : ConcCacheState :=
      ⟨⟨[], [], 0, 100⟩, [⟨"m", .start⟩, ⟨"m", .start⟩]⟩
    ConcCache.inFlight (ConcCache.run sizes s0 [0, 1]) "m" = 2 := by
  decide

/-- C8 amended: `get_model` has no per-`model_id` single-flight: whenever one
task's fetch for `m` is in flight and another task starts `get_model "m"`
while `m` is still unregistered in `cached_models`, the second task starts
its own concurrent fetch instead of waiting for and sharing the first. -/
theorem modelCache_no_single_flight (sizes : String → Nat)
    (core : ModelCacheState) (m : String) (t1 : FetchTask)
    (h1 : t1.model = m) (h2 : t1.pc = .awaitFetch)
    (hmiss : (core.entries.lookup m : Option CacheEntry) = none) :
    ConcCache.inFlight
      (ConcCache.stepTask sizes ⟨core, [t1, ⟨m, .start⟩]⟩ 1) m = 2 := by
  obtain ⟨tm, tpc⟩ := t1
  simp only at h1 h2
  subst h1
  subst h2
  simp [ConcCache.stepTask, ConcCache.inFlight, hmiss, List.filter]

/-- C8 amended witness: concrete instance with an empty cache. -/
theorem modelCache_no_single_flight_witness :
    ConcCache.inFlight
      (ConcCache.stepTask (fun _ => 8)
        ⟨⟨[], [], 0, 100⟩, [⟨"m", .awaitFetch⟩, ⟨"m", .start⟩]⟩ 1) "m" = 2 :=
  modelCache_no_single_flight (fun _ => 8) ⟨[], [], 0, 100⟩ "m"
    ⟨"m", .awaitFetch⟩ rfl rfl rfl

/-! ## Orchestrator (`orchestrator/src/orchestrator.py`)

The `models/` package (`JobSpec`, `JobStatus` pydantic classes) is not under
`src/`.  Modelled from the spec: `JobSpec` carries `pattern`, a
pattern-shaped `config`, `priority`, `max_cost` and optional `input_data`
(§3); the config keys used by validation and the engines are modelled as a
record of optional fields, where `none` is an absent dictionary key.  For
`spec.config.nodes` (attribute access in `DIMOrchestrator.validate_spec`) an
absent field raises `AttributeError`, which the surrounding `try` converts to
`{'valid': False}`; `((config.nodes).getD []).length < 2` gives the same
verdict, so the two readings agree. -/
inductive Pattern where
  | collaborative
  | comparative
  | chained
deriving DecidableEq

structure AggregationConfig where
  method : Option String

structure PipelineStep where
  step : Nat
  name : String
  modelId : String
  nodeId : String
  inputSource : Option String
  timeout : Option Nat

structure JobConfig where
  modelId : Option String
  nodes : Option (List String)
  aggregation : Option AggregationConfig
  dataRequirements : Option PyVal
  timeout : Option Nat
  modelIds : Option (List String)
  nodeId : Option String
  pipeline : Option (List PipelineStep)
  errorHandlingOnFailure : Option String

structure JobSpec where
  pattern : Pattern
  config : JobConfig
  priority : String
  maxCost : Nat
  inputData : Option PyVal

inductive JobState where
  | pending
  | running
  | completed
  | failed
  | cancelled
deriving DecidableEq

/-- The mutable `JobStatus` records kept in `self.active_jobs`. -/
structure JobStatus where
  pattern : Pattern
  state : JobState
  userId : String
  startedAt : Option Nat
  completedAt : Option Nat
  result : Option PyVal
  error : Option String

/-- Orchestrator in-memory state: the `active_jobs` map (insertion-ordered
dict) plus the logical clock standing for `datetime.now()`. -/
structure OrchState where
  activeJobs : List (String × JobStatus)
  clock : Nat

namespace DIMOrchestrator

/-- `DIMOrchestrator.validate_spec`: only the per-pattern size conditions are
checked (`len(spec.config.nodes) < 2` etc.); no presence check for
`model_id`, `aggregation.method`, `consensus.method` or step numbering. -/
def validateSpec (spec : JobSpec) : ValidationResult :=
  match spec.pattern with
  | .collaborative =>
    if (spec.config.nodes.getD []).length < 2 then
      ⟨false, some "Collaborative requires at least 2 nodes"⟩
    else ⟨true, none⟩
  | .comparative =>
    if (spec.config.modelIds.getD []).length < 2 then
      ⟨false, some "Comparative requires at least 2 models"⟩
    else ⟨true, none⟩
  | .chained =>
    if (spec.config.pipeline.getD []).length < 2 then
      ⟨false, some "Chained requires at least 2 pipeline steps"⟩
    else ⟨true, none⟩

/-- `DIMOrchestrator.update_job_state`: set the state unconditionally (no
terminal-state guard), stamp `started_at` on first RUNNING and `completed_at`
on any terminal state, then apply the `result`/`error` keyword arguments. -/
def updateJobState (s : OrchState) (jobId : String) (st : JobState)
    (result : Option PyVal) (error : Option String) : OrchState :=
  match (s.activeJobs.lookup jobId : Option JobStatus) with
  | none => s
  | some js =>
    let js2 : JobStatus := { js with state := st }
    let js3 : JobStatus :=
      if st = .running ∧ js.startedAt = none then
        { js2 with startedAt := some s.clock }
      else if st = .completed ∨ st = .failed ∨ st = .cancelled then
        { js2 with completedAt := some s.clock }
      else js2
    let js4 : JobStatus :=
      { js3 with result := if result.isSome then result else js3.result,
                 error := if error.isSome then error else js3.error }
    { s with
      activeJobs := s.activeJobs.map (fun p => if p.1 = jobId then (p.1, js4) else p),
      clock := s.clock + 1 }

/-- `DIMOrchestrator.cancel_job`: `False` when the job is not in
`active_jobs`, otherwise `update_job_state(job_id, CANCELLED)` and `True` —
with no check of the current state. -/
def cancelJob (s : OrchState) (jobId : String) : OrchState × Bool :=
  if (s.activeJobs.lookup jobId : Option JobStatus).isSome then
    (updateJobState s jobId .cancelled none none, true)
  else (s, false)

/-- `DIMOrchestrator.submit_job` (decision structure): validate, and on
success insert a PENDING status and either hand the job to another
orchestrator (`selectedOrch`) or start local execution; on failure raise
`ValueError` (surfaced to the RPC layer as the INVALID_SPEC taxonomy entry).
The returned flag is `true` iff local execution was started. -/
def submitJob (s : OrchState) (jobId : String) (spec : JobSpec)
    (userId : String) (selectedOrch : Option String) :
    Except String (OrchState × Bool) :=
  let v := validateSpec spec
  if v.valid then
    let status : JobStatus :=
      { pattern := spec.pattern, state := .pending, userId := userId,
        startedAt := none, completedAt := none, result := none, error := none }
    .ok ({ s with activeJobs := s.activeJobs ++ [(jobId, status)] },
         selectedOrch.isNone)
  else .error ("Invalid job spec: " ++ v.error.getD "")

end DIMOrchestrator

/-- C2 counterexample: a job whose state is COMPLETED is still present in
`active_jobs`; `cancel_job` returns `True` and rewrites its state to
CANCELLED — a transition out of a terminal state. -/
theorem orchestrator_cancel_terminal_counterexample :
    let js : JobStatus :=
      ⟨.collaborative, .completed, "u1", some 1, some 2, none, none⟩
    let s : OrchState := ⟨[("job-1", js)], 3⟩
    (DIMOrchestrator.cancelJob s "job-1").2 = true ∧
    ((DIMOrchestrator.cancelJob s "job-1").1.activeJobs.lookup "job-1").map
        JobStatus.state = some JobState.cancelled := by
  exact ⟨rfl, rfl⟩

lemma lookup_map_update (l : List (String × JobStatus)) (jobId : String)
    (js js4 : JobStatus) (h : l.lookup jobId = some js) :
    ((l.map (fun p => if p.1 = jobId then (p.1, js4) else p)).lookup jobId :
      Option JobStatus) = some js4 := by
  induction l with
  | nil => simp [List.lookup] at h
  | cons p rest ih =>
    obtain ⟨k, v⟩ := p
    by_cases hk : k = jobId
    · subst hk
      have hmapc : ((k, v) :: rest).map (fun p => if p.1 = k then (p.1, js4) else p)
          = (k, js4) :: rest.map (fun p => if p.1 = k then (p.1, js4) else p) := by
        rw [List.map_cons]
        congr 1
        simp
      rw [hmapc]
      simp [List.lookup]
    · have hbk : (jobId == k) = false := beq_eq_false_iff_ne.mpr (Ne.symm hk)
      have hmapc : ((k, v) :: rest).map (fun p => if p.1 = jobId then (p.1, js4) else p)
          = (k, v) :: rest.map (fun p => if p.1 = jobId then (p.1, js4) else p) := by
        rw [List.map_cons]
        congr 1
        simp [hk]
      simp only [List.lookup, hbk] at h
      rw [hmapc]
      simp only [List.lookup, hbk]
      exact ih h

/-- C2 amended: `cancel_job` returns `False` and changes nothing when the job
is absent from `active_jobs`; when the job is present it unconditionally sets
the state to CANCELLED (stamping `completed_at`) and returns `True`,
regardless of the current state — terminal states are not absorbing. -/
theorem orchestrator_cancel_job_behaviour (s : OrchState) (jobId : String) :
    (s.activeJobs.lookup jobId = none →
      DIMOrchestrator.cancelJob s jobId = (s, false)) ∧
    (∀ js : JobStatus, s.activeJobs.lookup jobId = some js →
      (DIMOrchestrator.cancelJob s jobId).2 = true ∧
      ((DIMOrchestrator.cancelJob s jobId).1.activeJobs.lookup jobId).map
          JobStatus.state = some JobState.cancelled) := by
  constructor
  · intro h
    simp [DIMOrchestrator.cancelJob, h]
  · intro js h
    constructor
    · simp [DIMOrchestrator.cancelJob, h]
    · simp only [DIMOrchestrator.cancelJob, h, Option.isSome_some, if_pos]
      simp only [DIMOrchestrator.updateJobState, h]
      rw [lookup_map_update s.activeJobs jobId js _ h]
      simp

/-- C2 amended witness: the two branches at concrete states — a missing job
id, and a COMPLETED job that gets cancelled anyway. -/
theorem orchestrator_cancel_job_behaviour_witness :
    (DIMOrchestrator.cancelJob ⟨[], 0⟩ "nope" = (⟨[], 0⟩, false)) ∧
    ((DIMOrchestrator.cancelJob
        ⟨[("job-1", ⟨.collaborative, .completed, "u1", some 1, some 2, none, none⟩)], 3⟩
        "job-1").2 = true) := by
  constructor
  · exact (orchestrator_cancel_job_behaviour ⟨[], 0⟩ "nope").1 rfl
  · exact ((orchestrator_cancel_job_behaviour
      ⟨[("job-1", ⟨.collaborative, .completed, "u1", some 1, some 2, none, none⟩)], 3⟩
      "job-1").2 ⟨.collaborative, .completed, "u1", some 1, some 2, none, none⟩ rfl).1

/-! ## CollaborativeEngine (`pattern_engines/collaborative/engine.py`)

`execute_pattern` fans the daemon call out over `config['nodes']` (the
per-node outcome is the oracle `daemon : node_id -> Except error result`;
`asyncio.gather(..., return_exceptions=True)` preserves node order), then
keeps only the non-exception results.  `aggregate_results` reads the
aggregation method from the job spec reloaded from the object store (the
oracle `loaded`), falling back to `federated_averaging`, and builds the
result dictionaries (embedded as structures; the Phase-1 aggregated outputs
are the literal placeholder strings).  `execute` is the common
validate/execute/aggregate driver from `base_engine.py`. -/
structure NodeResult where
  nodeId : String
  result : PyVal

structure AggOutput where
  method : String
  nodeResults : List NodeResult
  nodeCount : Nat
  aggregatedOutput : String

structure CollabResult where
  pattern : String
  jobId : String
  aggregation : AggOutput
  nodesUsed : List String

namespace CollaborativeEngine

/-- `CollaborativeEngine.validate_spec`: presence of `model_id`, `nodes`,
`aggregation` (in that order), then `len(config.get('nodes', [])) >= 2`.
Note: only the presence of the `aggregation` dict is checked, not
`aggregation.method`. -/
def validateSpec (spec : JobSpec) : ValidationResult :=
  if spec.config.modelId.isNone then ⟨false, some "Missing field: model_id"⟩
  else if spec.config.nodes.isNone then ⟨false, some "Missing field: nodes"⟩
  else if spec.config.aggregation.isNone then ⟨false, some "Missing field: aggregation"⟩
  else if (spec.config.nodes.getD []).length < 2 then
    ⟨false, some "Collaborative requires at least 2 nodes"⟩
  else ⟨true, none⟩

/-- `CollaborativeEngine.execute_pattern`: direct `config['model_id']` /
`config['nodes']` accesses (KeyError on an absent key), concurrent dispatch
in node order, failed nodes dropped. -/
def executePattern (daemon : String → Except String PyVal) (spec : JobSpec) :
    Except String (List NodeResult) :=
  match spec.config.modelId, spec.config.nodes with
  | some _, some nodes =>
    .ok (nodes.filterMap (fun n =>
      match daemon n with
      | .ok v => some ⟨n, v⟩
      | .error _ => none))
  | _, _ => .error "KeyError"

/-- `CollaborativeEngine.aggregate_results`. -/
def aggregateResults (loaded : Option JobSpec) (jobId : String)
    (results : List NodeResult) : CollabResult :=
  let method :=
    match loaded with
    | none => "federated_averaging"
    | some sp =>
      match sp.config.aggregation with
      | none => "federated_averaging"
      | some a => a.method.getD "federated_averaging"
  let out :=
    if method = "federated_averaging" then "mock_aggregated_result"
    else if method = "weighted_average" then "mock_weighted_average"
    else "mock_result"
  { pattern := "collaborative", jobId := jobId,
    aggregation := ⟨method, results, results.length, out⟩,
    nodesUsed := results.map (fun r => r.nodeId) }

/-- `BasePatternEngine.execute` specialised to the collaborative engine:
validate (raising `ValueError` on failure), execute the pattern, aggregate. -/
def execute (daemon : String → Except String PyVal) (loaded : Option JobSpec)
    (jobId : String) (spec : JobSpec) : Except String CollabResult :=
  let v := validateSpec spec
  if v.valid then (executePattern daemon spec).map (aggregateResults loaded jobId)
  else .error (v.error.getD "")

end CollaborativeEngine

/-- C3 counterexample: a COLLABORATIVE spec with two nodes but no `model_id`
and no `aggregation` passes `DIMOrchestrator.validate_spec` (which checks
only the node count), so `submit_job` accepts it and starts local execution
instead of rejecting it with INVALID_SPEC. -/
theorem orchestrator_validate_missing_fields_counterexample :
    let cfg : JobConfig :=
      ⟨none, some ["n1", "n2"], none, none, none, none, none, none, none⟩
    let spec : JobSpec := ⟨.collaborative, cfg, "normal", 0, none⟩
    DIMOrchestrator.validateSpec spec = ⟨true, none⟩ ∧
    exceptIsOk (DIMOrchestrator.submitJob ⟨[], 0⟩ "job-1" spec "u1" none) = true ∧
    (DIMOrchestrator.submitJob ⟨[], 0⟩ "job-1" spec "u1" none).map
        (fun r => r.2) = .ok true := by
  exact ⟨rfl, rfl, rfl⟩

/-- C3 amended: `submit_job`'s validation for COLLABORATIVE depends only on
the node count — specs lacking `model_id` or `aggregation.method` are
accepted and execution starts; the missing `model_id`/`aggregation` dict is
only caught later by the engine's own `validate_spec`, which fails the job
during execution (and a present-but-methodless `aggregation` is never
rejected at all). -/
theorem orchestrator_validate_only_counts (cfg : JobConfig) (priority : String)
    (maxCost : Nat) (inputData : Option PyVal) :
    (DIMOrchestrator.validateSpec ⟨.collaborative, cfg, priority, maxCost, inputData⟩).valid =
      decide (2 ≤ (cfg.nodes.getD []).length) ∧
    (cfg.modelId = none →
      ∀ daemon loaded jobId,
        CollaborativeEngine.execute daemon loaded jobId
          ⟨.collaborative, cfg, priority, maxCost, inputData⟩ =
          .error "Missing field: model_id") := by
  constructor
  · by_cases h : (cfg.nodes.getD []).length < 2
    · have h2 : ¬ (2 ≤ (cfg.nodes.getD []).length) := by omega
      simp [DIMOrchestrator.validateSpec, h, h2]
    · have h2 : 2 ≤ (cfg.nodes.getD []).length := by omega
      simp [DIMOrchestrator.validateSpec, h, h2]
  · intro hmid daemon loaded jobId
    simp [CollaborativeEngine.execute, CollaborativeEngine.validateSpec, hmid]

/-- C3 amended witness: the concrete spec from the counterexample is accepted
by the orchestrator and rejected by the engine. -/
theorem orchestrator_validate_only_counts_witness :
    (DIMOrchestrator.validateSpec
      ⟨.collaborative, ⟨none, some ["n1", "n2"], none, none, none, none, none, none, none⟩,
        "normal", 0, none⟩).valid = decide (2 ≤ 2) ∧
    CollaborativeEngine.execute (fun _ => .ok .vnull) none "job-1"
      ⟨.collaborative, ⟨none, some ["n1", "n2"], none, none, none, none, none, none, none⟩,
        "normal", 0, none⟩ = .error "Missing field: model_id" := by
  constructor
  · exact (orchestrator_validate_only_counts
      ⟨none, some ["n1", "n2"], none, none, none, none, none, none, none⟩ "normal" 0 none).1
  · exact (orchestrator_validate_only_counts
      ⟨none, some ["n1", "n2"], none, none, none, none, none, none, none⟩ "normal" 0 none).2
      rfl (fun _ => .ok .vnull) none "job-1"

/-- C5 counterexample: a valid collaborative spec with two nodes where every
subjob fails still completes successfully — `execute` returns a result with
`node_count = 0` and empty `nodes_used`; no minimum-success check exists. -/
theorem collaborative_all_fail_completes_counterexample :
    let cfg : JobConfig :=
      ⟨some "m1", some ["n1", "n2"], some ⟨some "federated_averaging"⟩,
        none, none, none, none, none, none⟩
    let spec : JobSpec := ⟨.collaborative, cfg, "normal", 0, none⟩
    let daemon : String → Except String PyVal := fun _ => .error "node down"
    exceptIsOk (CollaborativeEngine.execute daemon (some spec) "job-1" spec) = true ∧
    (CollaborativeEngine.execute daemon (some spec) "job-1" spec).map
        (fun r => r.aggregation.nodeCount) = .ok 0 ∧
    (CollaborativeEngine.execute daemon (some spec) "job-1" spec).map
        (fun r => r.nodesUsed) = .ok [] := by
  exact ⟨rfl, rfl, rfl⟩

/-- C5 amended: failed subjobs are excluded from aggregation — for any valid
collaborative spec, `execute` succeeds and `nodes_used` (and the aggregated
`node_results`) contain exactly the nodes whose subjob succeeded, in node
order — but no minimum of one success is enforced: `execute` returns
successfully even when the success list is empty. -/
theorem collaborative_excludes_failures (daemon : String → Except String PyVal)
    (loaded : Option JobSpec) (jobId : String) (spec : JobSpec)
    (mid : String) (nodes : List String) (agg : AggregationConfig)
    (hmid : spec.config.modelId = some mid)
    (hnodes : spec.config.nodes = some nodes)
    (hagg : spec.config.aggregation = some agg)
    (hlen : 2 ≤ nodes.length) :
    (CollaborativeEngine.execute daemon loaded jobId spec).map
        (fun r => r.nodesUsed) =
      .ok (nodes.filter (fun n => exceptIsOk (daemon n))) ∧
    (CollaborativeEngine.execute daemon loaded jobId spec).map
        (fun r => r.aggregation.nodeResults.map (fun nr => nr.nodeId)) =
      .ok (nodes.filter (fun n => exceptIsOk (daemon n))) ∧
    exceptIsOk (CollaborativeEngine.execute daemon loaded jobId spec) = true := by
  have hvalid : (CollaborativeEngine.validateSpec spec).valid = true := by
    simp [CollaborativeEngine.validateSpec, hmid, hnodes, hagg, Nat.not_lt.mpr hlen]
  have hfm : ∀ ns : List String,
      (ns.filterMap (fun n =>
        match daemon n with
        | .ok v => some (⟨n, v⟩ : NodeResult)
        | .error _ => none)).map (fun r => r.nodeId) =
      ns.filter (fun n => exceptIsOk (daemon n)) := by
    intro ns
    induction ns with
    | nil => rfl
    | cons n rest ih =>
      cases hd : daemon n with
      | ok v =>
        simp only [List.filterMap_cons, List.filter_cons, hd, exceptIsOk]
        simpa using ih
      | error e =>
        simp only [List.filterMap_cons, List.filter_cons, hd, exceptIsOk]
        simpa using ih
  refine ⟨?_, ?_, ?_⟩
  · simp only [CollaborativeEngine.execute, hvalid, if_pos,
      CollaborativeEngine.executePattern, hmid, hnodes, Except.map,
      CollaborativeEngine.aggregateResults]
    simpa using hfm nodes
  · simp only [CollaborativeEngine.execute, hvalid, if_pos,
      CollaborativeEngine.executePattern, hmid, hnodes, Except.map,
      CollaborativeEngine.aggregateResults]
    simpa using hfm nodes
  · simp [CollaborativeEngine.execute, hvalid,
      CollaborativeEngine.executePattern, hmid, hnodes, Except.map, exceptIsOk]

/-- C5 amended witness: two nodes, the first failing and the second
succeeding — `nodes_used = ["n2"]` and the job completes. -/
theorem collaborative_excludes_failures_witness :
    let cfg : JobConfig :=
      ⟨some "m1", some ["n1", "n2"], some ⟨some "federated_averaging"⟩,
        none, none, none, none, none, none⟩
    let spec : JobSpec := ⟨.collaborative, cfg, "normal", 0, none⟩
    let daemon : String → Except String PyVal :=
      fun n => if n = "n1" then .error "down" else .ok (.vstr "out")
    (CollaborativeEngine.execute daemon none "job-1" spec).map
        (fun r => r.nodesUsed) = .ok ["n2"] ∧
    exceptIsOk (CollaborativeEngine.execute daemon none "job-1" spec) = true := by
  refine ⟨?_, ?_⟩
  · have h := (collaborative_excludes_failures
      (fun n => if n = "n1" then .error "down" else .ok (.vstr "out")) none "job-1"
      ⟨.collaborative,
        ⟨some "m1", some ["n1", "n2"], some ⟨some "federated_averaging"⟩,
          none, none, none, none, none, none⟩, "normal", 0, none⟩
      "m1" ["n1", "n2"] ⟨some "federated_averaging"⟩ rfl rfl rfl (by decide)).1
    simpa using h
  · exact (collaborative_excludes_failures
      (fun n => if n = "n1" then .error "down" else .ok (.vstr "out")) none "job-1"
      ⟨.collaborative,
        ⟨some "m1", some ["n1", "n2"], some ⟨some "federated_averaging"⟩,
          none, none, none, none, none, none⟩, "normal", 0, none⟩
      "m1" ["n1", "n2"] ⟨some "federated_averaging"⟩ rfl rfl rfl (by decide)).2.2

/-! ## ChainedEngine (`pattern_engines/chained/engine.py`)

Steps execute in pipeline order; the input of a step is `spec['input_data']`
when `input_source == 'client_data'`, else the previous step's result, else
`{}` for a first step without a client-data source.  The daemon oracle takes
the node id, the dispatched sub-spec and the attempt index for that step, so
that retry policies are expressible; the engine dispatches each step exactly
once (attempt 0) — on failure both `error_handling` branches re-raise (the
`rollback_and_retry` branch is the Phase-1 `raise`).  Alongside the trace we
record the dispatched sub-specs (`sent`), the observable sequence of
`send_to_daemon` arguments. -/
structure DaemonJobSpec where
  jobId : String
  modelId : String
  timeout : Nat
  inputData : PyVal

structure StepResult where
  step : Nat
  name : String
  result : PyVal

structure RunOut where
  trace : List StepResult
  sent : List DaemonJobSpec
  err : Option String

structure ChainedResult where
  pattern : String
  jobId : String
  finalOutput : Option PyVal
  pipelineTrace : List StepResult
  totalSteps : Nat
  stepsCompleted : List Nat

namespace ChainedEngine

/-- `step['step'] == i + 1` for every index `i` (1-based strictly increasing
numbering). -/
def checkNumbering : List PipelineStep → Nat → Bool
  | [], _ => true
  | st :: rest, i => (st.step == i) && checkNumbering rest (i + 1)

/-- `ChainedEngine.validate_spec`. -/
def validateSpec (spec : JobSpec) : ValidationResult :=
  match spec.config.pipeline with
  | none => ⟨false, some "Missing pipeline"⟩
  | some pl =>
    if pl.length < 2 then ⟨false, some "Chained requires at least 2 steps"⟩
    else if checkNumbering pl 1 then ⟨true, none⟩
    else ⟨false, some "Invalid step numbering"⟩

/-- The `elif previous_output is not None: ... else: job_spec['input_data']
= {}` guard: a `None` previous result is replaced by the empty dict. -/
def prevOrEmpty : PyVal → PyVal
  | .vnull => .vdict []
  | v => v

/-- The input value assigned to `job_spec['input_data']` for one step.
`prev` is `previous_output`: Python `None` (= `vnull`) before any step has
succeeded, afterwards the raw result of the last successful step (which may
itself be `None`). -/
def stepInput (inputData : Option PyVal) (st : PipelineStep)
    (prev : PyVal) : PyVal :=
  if st.inputSource = some "client_data" then inputData.getD .vnull
  else prevOrEmpty prev

/-- The sub-spec dict dispatched to the daemon for one step
(`{'job_id': f"{job_id}-step-{n}", 'model_id': ..., 'timeout': ...,
'input_data': ...}`). -/
def stepSpec (jobId : String) (inputData : Option PyVal) (st : PipelineStep)
    (prev : PyVal) : DaemonJobSpec :=
  ⟨jobId ++ "-step-" ++ toString st.step, st.modelId, st.timeout.getD 120,
    stepInput inputData st prev⟩

/-- The execution loop of `ChainedEngine.execute_pattern`; the `PyVal`
argument is `previous_output` (initially `None`). -/
def runSteps (daemon : String → DaemonJobSpec → Nat → Except String PyVal)
    (jobId : String) (inputData : Option PyVal) (onFailure : Option String) :
    List PipelineStep → PyVal → RunOut
  | [], _ => ⟨[], [], none⟩
  | st :: rest, prev =>
    let js : DaemonJobSpec := stepSpec jobId inputData st prev
    match daemon st.nodeId js 0 with
    | .ok v =>
      let out := runSteps daemon jobId inputData onFailure rest v
      ⟨⟨st.step, st.name, v⟩ :: out.trace, js :: out.sent, out.err⟩
    | .error e =>
      if onFailure = some "rollback_and_retry" then
        ⟨[], [js], some e⟩
      else
        ⟨[], [js], some e⟩

/-- `ChainedEngine.execute_pattern` (`config['pipeline']` direct access;
`previous_output = None` initially). -/
def executePattern (daemon : String → DaemonJobSpec → Nat → Except String PyVal)
    (jobId : String) (spec : JobSpec) : RunOut :=
  match spec.config.pipeline with
  | none => ⟨[], [], some "KeyError: pipeline"⟩
  | some pl =>
    runSteps daemon jobId spec.inputData spec.config.errorHandlingOnFailure pl .vnull

/-- `ChainedEngine.aggregate_results`. -/
def aggregateResults (jobId : String) (results : List StepResult) :
    ChainedResult :=
  { pattern := "chained", jobId := jobId,
    finalOutput := results.getLast?.map (fun r => r.result),
    pipelineTrace := results,
    totalSteps := results.length,
    stepsCompleted := results.map (fun r => r.step) }

/-- `BasePatternEngine.execute` specialised to the chained engine. -/
def execute (daemon : String → DaemonJobSpec → Nat → Except String PyVal)
    (jobId : String) (spec : JobSpec) : Except String ChainedResult :=
  let v := validateSpec spec
  if v.valid then
    let out := executePattern daemon jobId spec
    match out.err with
    | some e => .error e
    | none => .ok (aggregateResults jobId out.trace)
  else .error (v.error.getD "")

end ChainedEngine

/-- C4 counterexample: a two-step pipeline with
`error_handling.on_failure = 'rollback_and_retry'` whose first step fails on
its first attempt and would succeed on the retry (`daemon ... 1 = ok`).  The
claim predicts the pipeline completes; the engine performs no retry and fails
the job with the first error. -/
theorem chained_retry_counterexample :
    let pl : List PipelineStep :=
      [⟨1, "s1", "m1", "n1", some "client_data", none⟩,
       ⟨2, "s2", "m2", "n2", none, none⟩]
    let cfg : JobConfig :=
      ⟨none, none, none, none, none, none, none, some pl, some "rollback_and_retry"⟩
    let spec : JobSpec := ⟨.chained, cfg, "normal", 0, some (.vstr "x")⟩
    let daemon : String → DaemonJobSpec → Nat → Except String PyVal :=
      fun _ js attempt =>
        if js.jobId = "job-1-step-1" ∧ attempt = 0 then .error "transient"
        else .ok (.vstr "ok")
    (daemon "n1" ⟨"job-1-step-1", "m1", 120, .vstr "x"⟩ 0 = .error "transient") ∧
    (daemon "n1" ⟨"job-1-step-1", "m1", 120, .vstr "x"⟩ 1 = .ok (.vstr "ok")) ∧
    ChainedEngine.execute daemon "job-1" spec = .error "transient" := by
  exact ⟨rfl, rfl, rfl⟩

lemma chained_runSteps_onFailure_irrelevant
    (daemon : String → DaemonJobSpec → Nat → Except String PyVal)
    (jobId : String) (inputData : Option PyVal) (a b : Option String)
    (steps : List PipelineStep) (prev : PyVal) :
    ChainedEngine.runSteps daemon jobId inputData a steps prev =
      ChainedEngine.runSteps daemon jobId inputData b steps prev := by
  induction steps generalizing prev with
  | nil => rfl
  | cons st rest ih =>
    simp only [ChainedEngine.runSteps]
    cases daemon st.nodeId (ChainedEngine.stepSpec jobId inputData st prev) 0 with
    | ok v => simp [ih]
    | error e =>
      by_cases ha : a = some "rollback_and_retry" <;>
        by_cases hb : b = some "rollback_and_retry" <;>
          simp [ha, hb]

/-- C4 amended: the `rollback_and_retry` policy is not implemented — the
engine raises on the first step failure exactly as `fail_fast` does, so the
value of `config.error_handling.on_failure` never changes the outcome: no
step is retried and the pipeline fails with the first step error. -/
theorem chained_onFailure_has_no_effect
    (daemon : String → DaemonJobSpec → Nat → Except String PyVal)
    (jobId : String) (cfg : JobConfig) (priority : String) (maxCost : Nat)
    (inputData : Option PyVal) (a b : Option String) :
    ChainedEngine.execute daemon jobId
        ⟨.chained, { cfg with errorHandlingOnFailure := a }, priority, maxCost, inputData⟩ =
      ChainedEngine.execute daemon jobId
        ⟨.chained, { cfg with errorHandlingOnFailure := b }, priority, maxCost, inputData⟩ := by
  simp only [ChainedEngine.execute, ChainedEngine.validateSpec,
    ChainedEngine.executePattern]
  cases cfg.pipeline with
  | none => rfl
  | some pl =>
    simp only
    rw [chained_runSteps_onFailure_irrelevant daemon jobId inputData a b pl .vnull]

lemma chained_runSteps_input_spec
    (daemon : String → DaemonJobSpec → Nat → Except String PyVal)
    (jobId : String) (inputData : Option PyVal) (onF : Option String) :
    ∀ (steps : List PipelineStep) (prev : PyVal) (k : Nat)
      (st : PipelineStep) (js : DaemonJobSpec),
      steps[k]? = some st →
      (ChainedEngine.runSteps daemon jobId inputData onF steps prev).sent[k]? = some js →
      (st.inputSource = some "client_data" → js.inputData = inputData.getD .vnull) ∧
      (st.inputSource ≠ some "client_data" → k = 0 →
        js.inputData = ChainedEngine.prevOrEmpty prev) ∧
      (st.inputSource ≠ some "client_data" → ∀ k2, k = k2 + 1 →
        ((ChainedEngine.runSteps daemon jobId inputData onF steps prev).trace[k2]?).map
          (fun r => ChainedEngine.prevOrEmpty r.result) = some js.inputData) := by
  intro steps
  induction steps with
  | nil =>
    intro prev k st js hst hjs
    simp [ChainedEngine.runSteps] at hjs
  | cons st0 rest ih =>
    intro prev k st js hst hjs
    cases hd : daemon st0.nodeId (ChainedEngine.stepSpec jobId inputData st0 prev) 0 with
    | ok v =>
      have hrun : ChainedEngine.runSteps daemon jobId inputData onF (st0 :: rest) prev =
          ⟨⟨st0.step, st0.name, v⟩ ::
              (ChainedEngine.runSteps daemon jobId inputData onF rest v).trace,
            ChainedEngine.stepSpec jobId inputData st0 prev ::
              (ChainedEngine.runSteps daemon jobId inputData onF rest v).sent,
            (ChainedEngine.runSteps daemon jobId inputData onF rest v).err⟩ := by
        simp only [ChainedEngine.runSteps, hd]
      rw [hrun] at hjs ⊢
      cases k with
      | zero =>
        simp only [List.getElem?_cons_zero, Option.some.injEq] at hst hjs
        subst hst
        subst hjs
        refine ⟨?_, ?_, ?_⟩
        · intro hcl
          simp [ChainedEngine.stepSpec, ChainedEngine.stepInput, hcl]
        · intro hncl _
          simp [ChainedEngine.stepSpec, ChainedEngine.stepInput, hncl]
        · intro _ k2 hk2
          exact absurd hk2 (Nat.succ_ne_zero k2).symm
      | succ k2 =>
        simp only [List.getElem?_cons_succ] at hst hjs
        have IH := ih v k2 st js hst hjs
        refine ⟨IH.1, ?_, ?_⟩
        · intro _ h0
          exact absurd h0 (Nat.succ_ne_zero k2)
        · intro hncl k3 heq
          have hk23 : k2 = k3 := by omega
          subst hk23
          cases k2 with
          | zero =>
            have h2 := IH.2.1 hncl rfl
            simp only [List.getElem?_cons_zero, Option.map_some]
            exact congrArg some h2.symm
          | succ k4 =>
            have h3 := IH.2.2 hncl k4 rfl
            simp only [List.getElem?_cons_succ]
            exact h3
    | error e =>
      have hrun : ChainedEngine.runSteps daemon jobId inputData onF (st0 :: rest) prev =
          ⟨[], [ChainedEngine.stepSpec jobId inputData st0 prev], some e⟩ := by
        simp only [ChainedEngine.runSteps, hd, ite_self]
      rw [hrun] at hjs ⊢
      cases k with
      | zero =>
        simp only [List.getElem?_cons_zero, Option.some.injEq] at hst hjs
        subst hst
        subst hjs
        refine ⟨?_, ?_, ?_⟩
        · intro hcl
          simp [ChainedEngine.stepSpec, ChainedEngine.stepInput, hcl]
        · intro hncl _
          simp [ChainedEngine.stepSpec, ChainedEngine.stepInput, hncl]
        · intro _ k2 hk2
          exact absurd hk2 (Nat.succ_ne_zero k2).symm
      | succ k2 =>
        simp only [List.getElem?_cons_succ, List.getElem?_nil] at hjs
        exact absurd hjs (by simp)

/-- C7 counterexample: a two-step pipeline whose first step succeeds with the
result `None`.  The `elif previous_output is not None` guard then substitutes
the empty dict `{}` as step 2's input, so the input passed to step 2 is not
the result produced by step 1 (`{}` differs from `None`). -/
theorem chained_null_result_substitution_counterexample :
    let pl : List PipelineStep :=
      [⟨1, "s1", "m1", "n1", some "client_data", none⟩,
       ⟨2, "s2", "m2", "n2", none, none⟩]
    let spec : JobSpec :=
      ⟨.chained, ⟨none, none, none, none, none, none, none, some pl, none⟩,
        "normal", 0, some (.vstr "x")⟩
    let daemon : String → DaemonJobSpec → Nat → Except String PyVal :=
      fun n _ _ => if n = "n1" then .ok .vnull else .ok (.vstr "r2")
    ((ChainedEngine.executePattern daemon "job-1" spec).trace[0]?).map
        (fun r => r.result) = some PyVal.vnull ∧
    ((ChainedEngine.executePattern daemon "job-1" spec).sent[1]?).map
        (fun j => j.inputData) = some (PyVal.vdict []) ∧
    PyVal.vdict [] ≠ PyVal.vnull := by
  refine ⟨rfl, rfl, fun h => PyVal.noConfusion h⟩

/-- C7 amended: in every chained execution, the sub-spec dispatched for step
`k` carries the job's `input_data` whenever that step's `input_source` is
`client_data`; otherwise it carries the result produced by step `k−1` when
that result is not `None`, and the empty dict `{}` when that result is `None`
(a first step without `client_data` likewise receives `{}`, since
`previous_output` starts as `None`). -/
theorem chained_step_input_rule
    (daemon : String → DaemonJobSpec → Nat → Except String PyVal)
    (jobId : String) (spec : JobSpec) (pl : List PipelineStep) (k : Nat)
    (st : PipelineStep) (js : DaemonJobSpec)
    (hpl : spec.config.pipeline = some pl)
    (hst : pl[k]? = some st)
    (hjs : (ChainedEngine.executePattern daemon jobId spec).sent[k]? = some js) :
    (st.inputSource = some "client_data" →
      js.inputData = spec.inputData.getD .vnull) ∧
    (st.inputSource ≠ some "client_data" → k = 0 →
      js.inputData = .vdict []) ∧
    (st.inputSource ≠ some "client_data" → ∀ k2, k = k2 + 1 →
      ((ChainedEngine.executePattern daemon jobId spec).trace[k2]?).map
        (fun r => ChainedEngine.prevOrEmpty r.result) = some js.inputData) := by
  simp only [ChainedEngine.executePattern, hpl] at hjs ⊢
  have h := chained_runSteps_input_spec daemon jobId spec.inputData
    spec.config.errorHandlingOnFailure pl .vnull k st js hst hjs
  exact ⟨h.1, h.2.1, h.2.2⟩

/-- C7 amended witness: a two-step pipeline where step 1 reads `client_data`
and step 2 chains; with a daemon answering the node name (a non-`None`
result), step 1's dispatched input is the client input `"x"` and step 2's
input is step 1's result. -/
theorem chained_step_input_rule_witness :
    let pl : List PipelineStep :=
      [⟨1, "s1", "m1", "n1", some "client_data", none⟩,
       ⟨2, "s2", "m2", "n2", none, none⟩]
    let spec : JobSpec :=
      ⟨.chained, ⟨none, none, none, none, none, none, none, some pl, none⟩,
        "normal", 0, some (.vstr "x")⟩
    let daemon : String → DaemonJobSpec → Nat → Except String PyVal :=
      fun n _ _ => .ok (.vstr n)
    ((ChainedEngine.executePattern daemon "job-1" spec).sent[0]?).map
        (fun j => j.inputData) = some (PyVal.vstr "x") ∧
    (ChainedEngine.executePattern daemon "job-1" spec).sent[1]? =
      some ⟨"job-1-step-2", "m2", 120, .vstr "n1"⟩ ∧
    ((ChainedEngine.executePattern daemon "job-1" spec).trace[0]?).map
        (fun r => ChainedEngine.prevOrEmpty r.result) = some (PyVal.vstr "n1") := by
  refine ⟨rfl, rfl, ?_⟩
  · exact (chained_step_input_rule
      (fun n _ _ => .ok (.vstr n)) "job-1"
      ⟨.chained,
        ⟨none, none, none, none, none, none, none,
          some [⟨1, "s1", "m1", "n1", some "client_data", none⟩,
                ⟨2, "s2", "m2", "n2", none, none⟩], none⟩,
        "normal", 0, some (.vstr "x")⟩
      [⟨1, "s1", "m1", "n1", some "client_data", none⟩,
       ⟨2, "s2", "m2", "n2", none, none⟩]
      1 ⟨2, "s2", "m2", "n2", none, none⟩
      ⟨"job-1-step-2", "m2", 120, .vstr "n1"⟩ rfl rfl rfl).2.2 (by simp) 0 rfl


/-! ## RateLimiter (`orchestrator/src/rate_limiter.py`)

Token bucket per identifier.  Python floats (`time.time()`, token counts)
are idealised as rationals; `int(x)` on the non-negative `retry_after` is the
floor.  `self.buckets` is a `defaultdict`, so even a denied request creates
and refills the bucket; the `enabled = False` early return happens before any
bucket is touched. -/
structure TokenBucket where
  tokens : ℚ
  lastRefill : ℚ

structure UserLimit where
  ratePerMinute : Option ℚ
  burstSize : Option ℚ

structure RateLimiterState where
  enabled : Bool
  defaultRate : ℚ
  burstSize : ℚ
  userLimits : List (String × UserLimit)
  buckets : List (String × TokenBucket)

namespace RateLimiter

/-- Dict assignment on `self.buckets` (update in place, else append). -/
def setBucket (bs : List (String × TokenBucket)) (id : String)
    (b : TokenBucket) : List (String × TokenBucket) :=
  if id ∈ bs.map (fun p => p.1) then
    bs.map (fun p => if p.1 = id then (p.1, b) else p)
  else bs ++ [(id, b)]

/-- `RateLimiter.check_rate_limit`. -/
def checkRateLimit (now : ℚ) (s : RateLimiterState) (identifier : String)
    (cost : ℚ) : (Bool × Option String) × RateLimiterState :=
  if ¬ s.enabled then ((true, none), s)
  else
    let rate := ((s.userLimits.lookup identifier).bind
      (fun u => u.ratePerMinute)).getD s.defaultRate
    let burst := ((s.userLimits.lookup identifier).bind
      (fun u => u.burstSize)).getD s.burstSize
    let bucket := (s.buckets.lookup identifier).getD ⟨s.burstSize, now⟩
    let elapsed := now - bucket.lastRefill
    let tokens2 := min burst (bucket.tokens + (rate / 60) * elapsed)
    if cost ≤ tokens2 then
      ((true, none),
        { s with buckets := setBucket s.buckets identifier ⟨tokens2 - cost, now⟩ })
    else
      let retryAfter : Int := Int.floor ((cost - tokens2) / (rate / 60))
      ((false, some ("Rate limit exceeded. Retry after " ++ toString retryAfter
          ++ " seconds")),
        { s with buckets := setBucket s.buckets identifier ⟨tokens2, now⟩ })

end RateLimiter

/-- C10: with `rate_limiting.enabled = false`, `check_rate_limit` returns
`(True, None)` for every identifier and cost, leaving the whole state — in
particular the token buckets — untouched. -/
theorem rateLimiter_disabled_passthrough (now : ℚ) (s : RateLimiterState)
    (identifier : String) (cost : ℚ) (h : s.enabled = false) :
    RateLimiter.checkRateLimit now s identifier cost = ((true, none), s) := by
  simp [RateLimiter.checkRateLimit, h]

/-- C10 witness: a disabled limiter with an existing bucket, an arbitrary
identifier and cost 5. -/
theorem rateLimiter_disabled_passthrough_witness :
    RateLimiter.checkRateLimit 7
      ⟨false, 60, 10, [], [("alice", ⟨3, 2⟩)]⟩ "alice" 5 =
      ((true, none), ⟨false, 60, 10, [], [("alice", ⟨3, 2⟩)]⟩) :=
  rateLimiter_disabled_passthrough 7
    ⟨false, 60, 10, [], [("alice", ⟨3, 2⟩)]⟩ "alice" 5 rfl

/-! ## DIMDaemon.cancel_job (`daemon/src/daemon.py`)

For a tracked job the method runs `await self.job_queue.remove(job_id)` and
then `await self.agent_manager.cancel_agent(job_id)` — but `JobQueue`
(`job_queue.py`) defines no `remove`, and `AgentManager`
(`agent_manager.py`) defines no `cancel_agent`, anywhere in the repository.
The first call therefore raises `AttributeError` before any state change:
the job is neither removed from its band nor marked cancelled, and `True` is
never returned.  (The unit test `test_cancel_job` patches both missing
attributes, which is what the intended behaviour would need.) -/
structure DaemonJob where
  status : String
  createdAt : Nat

structure DaemonState where
  activeJobs : List (String × DaemonJob)
  clock : Nat

namespace DIMDaemon

/-- `DIMDaemon.cancel_job` as written: the `AttributeError` from the missing
`JobQueue.remove` aborts the tracked-job branch. -/
def cancelJob (s : DaemonState) (jobId : String) :
    Except String (DaemonState × Bool) :=
  if (s.activeJobs.lookup jobId : Option DaemonJob).isSome then
    .error "AttributeError: JobQueue object has no attribute remove"
  else .ok (s, false)

end DIMDaemon

/-- C9: evaluating `cancel_job` at the failing input — a daemon tracking the
queued job `test-job-001` — raises `AttributeError` instead of removing the
job from its band, signalling the agent, marking it cancelled and returning
`True`. -/
theorem daemon_cancel_job_attribute_error :
    DIMDaemon.cancelJob ⟨[("test-job-001", ⟨"queued", 0⟩)], 1⟩ "test-job-001" =
      .error "AttributeError: JobQueue object has no attribute remove" := rfl
